import Mathlib

set_option maxHeartbeats 1000000

/-!
Verification of the stenciled virtual-file core of ratarmount
(`src/core/ratarmountcore/StenciledFile.py`), shallowly embedded in Lean.

Modelling conventions:
* A byte source (`FileObject`) is a regular, seekable file modelled by its
  byte content (`data : List Nat`) together with its `readable` and `closed`
  flags.  Because `RawStenciledFile.read` always repositions the source with
  an absolute seek before reading, the source file position is irrelevant
  and is not modelled; `FileObject.readAt pos count` is the result of
  `seek(pos)` followed by `read(count)` on a regular file (a negative count
  reads to end of file, as in Python).
* Python exceptions are modelled by `Except PyError`; `assert` failures map
  to `PyError.assertionError` and `raise ValueError(...)` to
  `PyError.valueError`.
* Methods that mutate `self` return the new object.  Python's `seek` can
  raise *after* having mutated `self.offset`; to model this faithfully,
  `seek` and `read` return the (possibly mutated) object alongside the
  `Except` result instead of inside it.
* `read` additionally returns the trace of operations it performed on the
  underlying sources (`SourceOp`), so that statements such as "exactly one
  seek+read pair, targeting stencil i" are provable.
-/

structure FileObject where
  data : List Nat
  readable : Bool
  closed : Bool
deriving DecidableEq

def emptyFileObject : FileObject := ⟨[], false, false⟩

/-- `fobj.seek(pos, SEEK_SET)` followed by `fobj.read(count)` on a regular
file: a nonnegative `count` returns at most `count` bytes starting at
`pos`; a negative `count` returns everything from `pos` to end of file. -/
def FileObject.readAt (f : FileObject) (pos : Nat) (count : Int) : List Nat :=
  if count < 0 then f.data.drop pos else (f.data.drop pos).take count.toNat

inductive PyError where
  | assertionError
  | valueError
deriving DecidableEq

/-- One operation on an underlying source, identified by the index of the
stencil that targets it: `seek i pos` positions the source of stencil `i`
at absolute offset `pos`; `srcRead i count` reads up to `count` bytes from
it. -/
inductive SourceOp where
  | seek (stencil : Nat) (pos : Nat)
  | srcRead (stencil : Nat) (count : Int)
deriving DecidableEq

def SEEK_SET : Nat := 0
def SEEK_CUR : Nat := 1
def SEEK_END : Nat := 2

/-- Python's `bisect.bisect_left(a, x)` applied to a sorted list `a`: the
leftmost insertion point for `x`, i.e. the number of elements smaller
than `x`. -/
def bisect_left (a : List Nat) (x : Nat) : Nat :=
  a.countP (fun y => decide (y < x))

/-- The tail of the cumulative-sizes array: `cumsizesAux last sizes`
appends `last + size` for each size, as in the constructor loop
`self.cumsizes.append(self.cumsizes[-1] + size)`. -/
def cumsizesAux (last : Nat) : List Nat → List Nat
  | [] => []
  | size :: rest => (last + size) :: cumsizesAux (last + size) rest

/-- `self.cumsizes = [0]` followed by the append loop. -/
def cumsizesOf (sizes : List Nat) : List Nat := 0 :: cumsizesAux 0 sizes

structure RawStenciledFile where
  offset : Int
  offsets : List Nat
  sizes : List Nat
  fileObjects : List FileObject
  cumsizes : List Nat
deriving DecidableEq

/-- `RawStenciledFile.__init__` for the canonical `fileStencils` interface:
a list of `(file object, offset, size)` triples.  The validation asserts,
the zero-size filter, the readability check and the cumulative-size array
are modelled in exactly the order the constructor performs them; the
trailing `self.seek(0)` leaves the cursor at 0.  The validated offsets and
sizes are stored as naturals. -/
def RawStenciledFile.init (fileStencils : List (FileObject × Int × Int)) :
    Except PyError RawStenciledFile :=
  -- self.fileObjects, self.offsets, self.sizes = zip(*fileStencils)
  let offsets0 := fileStencils.map (fun x => x.2.1)
  let sizes0 := fileStencils.map (fun x => x.2.2)
  -- for offset in self.offsets: assert offset >= 0
  if ¬ offsets0.all (fun o => decide (0 ≤ o)) then .error .assertionError
  -- for size in self.sizes: assert size >= 0
  else if ¬ sizes0.all (fun s => decide (0 ≤ s)) then .error .assertionError
  else
    -- selectedStencils = [i for i, size in enumerate(self.sizes) if size > 0]
    let selectedStencils := fileStencils.filter (fun x => decide (0 < x.2.2))
    let offsets := selectedStencils.map (fun x => x.2.1.toNat)
    let sizes := selectedStencils.map (fun x => x.2.2.toNat)
    let fileObjects := selectedStencils.map (fun x => x.1)
    -- for fileObject in self.fileObjects: if not fileObject.readable(): raise ValueError
    if ¬ fileObjects.all (fun fo => fo.readable) then .error .valueError
    else
      .ok { offset := 0, offsets := offsets, sizes := sizes,
            fileObjects := fileObjects, cumsizes := cumsizesOf sizes }

/-- `RawStenciledFile._findStencil`. -/
def RawStenciledFile._findStencil (f : RawStenciledFile) (offset : Int) :
    Except PyError Nat :=
  -- assert offset >= 0
  if offset < 0 then .error .assertionError
  else
    -- i = bisect.bisect_left(self.cumsizes, offset + 1) - 1
    let i : Int := (bisect_left f.cumsizes (offset.toNat + 1) : Int) - 1
    -- assert i >= 0
    if i < 0 then .error .assertionError
    else .ok i.toNat

/-- `RawStenciledFile.read`.  Returns the result (or the raised error), the
object after the call, and the trace of source-level operations issued. -/
def RawStenciledFile.read (f : RawStenciledFile) (size₀ : Int) :
    Except PyError (List Nat) × RawStenciledFile × List SourceOp :=
  -- if size == -1: size = self.cumsizes[-1] - self.offset
  let size := if size₀ = -1 then (f.cumsizes.getLastD 0 : Int) - f.offset else size₀
  match f._findStencil f.offset with
  | .error e => (.error e, f, [])
  | .ok i =>
    -- if i >= len(self.sizes): return result  (result == b'' here)
    if f.sizes.length ≤ i then (.ok [], f, [])
    else
      let fobj := f.fileObjects.getD i emptyFileObject
      -- if self.fileObjects[i].closed: raise ValueError(...)
      if fobj.closed then (.error .valueError, f, [])
      else
        let offsetInsideStencil : Int := f.offset - (f.cumsizes.getD i 0 : Int)
        -- assert offsetInsideStencil >= 0 ; assert offsetInsideStencil < self.sizes[i]
        if offsetInsideStencil < 0 then (.error .assertionError, f, [])
        else if (f.sizes.getD i 0 : Int) ≤ offsetInsideStencil then
          (.error .assertionError, f, [])
        else
          -- self.fileObjects[i].seek(self.offsets[i] + offsetInsideStencil, io.SEEK_SET)
          let pos := f.offsets.getD i 0 + offsetInsideStencil.toNat
          -- readableSize = min(size, self.sizes[i] - (self.offset - self.cumsizes[i]))
          let readableSize := min size ((f.sizes.getD i 0 : Int) - offsetInsideStencil)
          -- tmp = self.fileObjects[i].read(readableSize); self.offset += len(tmp)
          let tmp := fobj.readAt pos readableSize
          (.ok tmp, { f with offset := f.offset + tmp.length },
            [SourceOp.seek i pos, SourceOp.srcRead i readableSize])

/-- `RawStenciledFile.seek`.  The Python method mutates `self.offset`
*before* checking for negativity, so on failure the returned object
carries the negative cursor. -/
def RawStenciledFile.seek (f : RawStenciledFile) (offset : Int) (whence : Nat) :
    Except PyError Int × RawStenciledFile :=
  let newOffset :=
    if whence = SEEK_CUR then f.offset + offset
    else if whence = SEEK_END then (f.cumsizes.getLastD 0 : Int) + offset
    else if whence = SEEK_SET then offset
    else f.offset
  let f' := { f with offset := newOffset }
  -- if self.offset < 0: raise ValueError(...)
  if f'.offset < 0 then (.error .valueError, f')
  else (.ok f'.offset, f')

/-- `RawStenciledFile.tell`. -/
def RawStenciledFile.tell (f : RawStenciledFile) : Int := f.offset

/-- The virtual size `self.cumsizes[-1]`. -/
def RawStenciledFile.totalSize (f : RawStenciledFile) : Nat := f.cumsizes.getLastD 0

/-- The structural invariant established by the constructor: the three
stencil lists have equal lengths, the retained sizes are positive and
`cumsizes` is their cumulative-sum array. -/
def RawStenciledFile.WF (f : RawStenciledFile) : Prop :=
  f.cumsizes = cumsizesOf f.sizes ∧
  f.offsets.length = f.sizes.length ∧
  f.fileObjects.length = f.sizes.length ∧
  ∀ s ∈ f.sizes, 0 < s

/-- Every stencil's byte range actually exists in its source. -/
def RawStenciledFile.InBounds (f : RawStenciledFile) : Prop :=
  ∀ i, i < f.sizes.length →
    f.offsets.getD i 0 + f.sizes.getD i 0 ≤
      (f.fileObjects.getD i emptyFileObject).data.length

/-- Repeatedly call `read` (with the unbounded default size `-1`) until it
returns an empty result, concatenating everything read. -/
def RawStenciledFile.readLoop : Nat → RawStenciledFile → List Nat
  | 0, _ => []
  | fuel + 1, f =>
    match f.read (-1) with
    | (.ok tmp, f', _) =>
        if tmp = [] then [] else tmp ++ RawStenciledFile.readLoop fuel f'
    | (.error _, _, _) => []

/-- The ordered concatenation of the byte ranges described by the three
parallel stencil lists of a table. -/
def tableContentFrom : List FileObject → List Nat → List Nat → List Nat
  | fo :: fos, o :: os, s :: ss =>
    (fo.data.drop o).take s ++ tableContentFrom fos os ss
  | _, _, _ => []

/-- The ordered concatenation `source[offset : offset + size]` over a
stencil list, in list order (Python slices truncate at the end of the
source, as `drop`/`take` do). -/
def stencilContent (fileStencils : List (FileObject × Int × Int)) : List Nat :=
  (fileStencils.map (fun x => (x.1.data.drop x.2.1.toNat).take x.2.2.toNat)).flatten

/-- `JoinedFile.__init__`: determine each source's size by seeking to its
end (for the regular-file sources of this model that is the length of
`data` and never yields `None`, so the `size is None` error path cannot
trigger), emit one stencil `(source, 0, size)` per source, and build the
raw stenciled file those stencils describe. -/
def JoinedFile.init (file_objects : List FileObject) :
    Except PyError RawStenciledFile :=
  -- sizes = [fobj.seek(0, io.SEEK_END) for fobj in file_objects]
  let sizes := file_objects.map (fun fobj => fobj.data.length)
  -- fileStencils = [(fobj, 0, size if size else 0) for fobj, size in zip(file_objects, sizes)]
  let fileStencils :=
    (file_objects.zip sizes).map
      (fun p => (p.1, (0 : Int), ((if p.2 = 0 then 0 else p.2 : Nat) : Int)))
  RawStenciledFile.init fileStencils

/-! ### Generic list helpers -/

lemma getD_mem_of_lt {α : Type} (d : α) :
    ∀ (l : List α) (i : Nat), i < l.length → l.getD i d ∈ l := by
  intro l
  induction l with
  | nil => intro i h; simp at h
  | cons a t ih =>
    intro i h
    cases i with
    | zero => simp
    | succ j =>
      simp only [List.getD_cons_succ]
      exact List.mem_cons_of_mem _ (ih j (by simpa using h))

lemma getD_map_of_lt {α β : Type} (g : α → β) (d : β) (e : α) :
    ∀ (l : List α) (i : Nat), i < l.length → (l.map g).getD i d = g (l.getD i e) := by
  intro l
  induction l with
  | nil => intro i h; simp at h
  | cons a t ih =>
    intro i h
    cases i with
    | zero => simp
    | succ j => simpa using ih j (by simpa using h)

lemma drop_eq_getD_cons {α : Type} (d : α) :
    ∀ (l : List α) (i : Nat), i < l.length → l.drop i = l.getD i d :: l.drop (i + 1) := by
  intro l
  induction l with
  | nil => intro i h; simp at h
  | cons a t ih =>
    intro i h
    cases i with
    | zero => simp
    | succ j => simpa using ih j (by simpa using h)

lemma getD_pos_of_forall_pos {l : List Nat} (hl : ∀ s ∈ l, 0 < s) {i : Nat}
    (h : i < l.length) : 0 < l.getD i 0 :=
  hl _ (getD_mem_of_lt 0 l i h)

/-! ### Properties of the cumulative-size array -/

lemma cumsizesAux_length (b : Nat) (l : List Nat) :
    (cumsizesAux b l).length = l.length := by
  induction l generalizing b with
  | nil => rfl
  | cons s rest ih => simp [cumsizesAux, ih]

lemma cumsizesOf_length (sizes : List Nat) :
    (cumsizesOf sizes).length = sizes.length + 1 := by
  simp [cumsizesOf, cumsizesAux_length]

lemma cumsizesAux_ge (l : List Nat) :
    ∀ (b : Nat), ∀ x ∈ cumsizesAux b l, b ≤ x := by
  induction l with
  | nil => intro b x hx; simp [cumsizesAux] at hx
  | cons s rest ih =>
    intro b x hx
    simp only [cumsizesAux, List.mem_cons] at hx
    rcases hx with rfl | hx
    · omega
    · have := ih (b + s) x hx; omega

lemma cumsizesAux_getD_succ (l : List Nat) :
    ∀ (b i : Nat), i < l.length →
      (b :: cumsizesAux b l).getD (i + 1) 0 =
        (b :: cumsizesAux b l).getD i 0 + l.getD i 0 := by
  induction l with
  | nil => intro b i h; simp at h
  | cons s rest ih =>
    intro b i h
    cases i with
    | zero => simp [cumsizesAux]
    | succ j =>
      have hj : j < rest.length := by simpa using h
      simpa [cumsizesAux] using ih (b + s) j hj

lemma cumsizesOf_getD_zero (sizes : List Nat) : (cumsizesOf sizes).getD 0 0 = 0 := rfl

lemma cumsizesOf_getD_succ (sizes : List Nat) (i : Nat) (h : i < sizes.length) :
    (cumsizesOf sizes).getD (i + 1) 0 =
      (cumsizesOf sizes).getD i 0 + sizes.getD i 0 :=
  cumsizesAux_getD_succ sizes 0 i h

lemma cumsizesAux_getD_length (l : List Nat) :
    ∀ (b : Nat), (b :: cumsizesAux b l).getD l.length 0 = b + l.sum := by
  induction l with
  | nil => intro b; simp
  | cons s rest ih =>
    intro b
    have := ih (b + s)
    simp only [cumsizesAux, List.length_cons, List.getD_cons_succ]
    rw [this]
    simp [List.sum_cons]
    omega

lemma cumsizesOf_getD_length (sizes : List Nat) :
    (cumsizesOf sizes).getD sizes.length 0 = sizes.sum := by
  simpa [cumsizesOf] using cumsizesAux_getD_length sizes 0

lemma cumsizesAux_getLastD (l : List Nat) :
    ∀ (b d : Nat), (b :: cumsizesAux b l).getLastD d = b + l.sum := by
  induction l with
  | nil => intro b d; simp [cumsizesAux]
  | cons s rest ih =>
    intro b d
    simp only [cumsizesAux]
    rw [List.getLastD_cons, ih (b + s) b]
    simp [List.sum_cons]
    omega

lemma cumsizesOf_getLastD (sizes : List Nat) :
    (cumsizesOf sizes).getLastD 0 = sizes.sum := by
  simpa [cumsizesOf] using cumsizesAux_getLastD sizes 0 0

lemma cumsizesOf_getD_mono (sizes : List Nat) (i k : Nat)
    (h : i + k ≤ sizes.length) :
    (cumsizesOf sizes).getD i 0 ≤ (cumsizesOf sizes).getD (i + k) 0 := by
  induction k with
  | zero => simp
  | succ m ih =>
    have h1 : i + m ≤ sizes.length := by omega
    have h2 : i + m < sizes.length := by omega
    calc (cumsizesOf sizes).getD i 0 ≤ (cumsizesOf sizes).getD (i + m) 0 := ih h1
      _ ≤ (cumsizesOf sizes).getD (i + m) 0 + sizes.getD (i + m) 0 := by omega
      _ = (cumsizesOf sizes).getD (i + m + 1) 0 := (cumsizesOf_getD_succ sizes _ h2).symm
      _ = (cumsizesOf sizes).getD (i + (m + 1)) 0 := by ring_nf

lemma cumsizesOf_getD_le_sum (sizes : List Nat) (i : Nat) (h : i ≤ sizes.length) :
    (cumsizesOf sizes).getD i 0 ≤ sizes.sum := by
  have := cumsizesOf_getD_mono sizes i (sizes.length - i) (by omega)
  rw [show i + (sizes.length - i) = sizes.length by omega, cumsizesOf_getD_length] at this
  exact this

/-! ### Characterization of the binary-search lookup -/

lemma countP_cumsizesAux_main (l : List Nat) (hpos : ∀ s ∈ l, 0 < s) :
    ∀ (b o : Nat), b ≤ o →
      ((o < b + l.sum →
          (cumsizesAux b l).countP (fun y => decide (y ≤ o)) < l.length ∧
          (b :: cumsizesAux b l).getD
              ((cumsizesAux b l).countP (fun y => decide (y ≤ o))) 0 ≤ o ∧
          o < (b :: cumsizesAux b l).getD
              ((cumsizesAux b l).countP (fun y => decide (y ≤ o)) + 1) 0) ∧
        (b + l.sum ≤ o →
          (cumsizesAux b l).countP (fun y => decide (y ≤ o)) = l.length)) := by
  induction l with
  | nil =>
    intro b o hbo
    constructor
    · intro h; simp at h; omega
    · intro _; simp [cumsizesAux]
  | cons s rest ih =>
    intro b o hbo
    have hs : 0 < s := hpos s (by simp)
    have hrest : ∀ x ∈ rest, 0 < x := fun x hx => hpos x (by simp [hx])
    have hunfold : cumsizesAux b (s :: rest) = (b + s) :: cumsizesAux (b + s) rest := rfl
    rw [hunfold]
    by_cases h1 : o < b + s
    · -- the offset lies in the first remaining stencil
      have hzero : (cumsizesAux (b + s) rest).countP (fun y => decide (y ≤ o)) = 0 := by
        apply List.countP_eq_zero.mpr
        intro x hx
        have := cumsizesAux_ge rest (b + s) x hx
        simp only [decide_eq_true_eq]
        omega
      have hcnt : ((b + s) :: cumsizesAux (b + s) rest).countP
          (fun y => decide (y ≤ o)) = 0 := by
        rw [List.countP_cons, hzero]
        have : ¬ (b + s ≤ o) := by omega
        simp [this]
      rw [hcnt]
      constructor
      · intro _
        refine ⟨by simp, ?_, ?_⟩
        · rw [List.getD_cons_zero]; omega
        · rw [List.getD_cons_succ, List.getD_cons_zero]; omega
      · intro h2
        exfalso
        simp only [List.sum_cons] at h2
        omega
    · -- the offset lies beyond the first remaining stencil; recurse
      have h1' : b + s ≤ o := by omega
      obtain ⟨ihlt, ihge⟩ := ih hrest (b + s) o h1'
      have hcnt : ((b + s) :: cumsizesAux (b + s) rest).countP
          (fun y => decide (y ≤ o)) =
          (cumsizesAux (b + s) rest).countP (fun y => decide (y ≤ o)) + 1 := by
        rw [List.countP_cons]
        simp [h1']
      rw [hcnt]
      constructor
      · intro h2
        have h2' : o < (b + s) + rest.sum := by
          simp only [List.sum_cons] at h2; omega
        obtain ⟨c1, c2, c3⟩ := ihlt h2'
        refine ⟨?_, ?_, ?_⟩
        · simp only [List.length_cons]; omega
        · rw [List.getD_cons_succ]; exact c2
        · rw [List.getD_cons_succ]; exact c3
      · intro h2
        have h2' : (b + s) + rest.sum ≤ o := by
          simp only [List.sum_cons] at h2; omega
        simp [ihge h2']

lemma countP_lt_succ_eq_le (l : List Nat) (o : Nat) :
    l.countP (fun y => decide (y < o + 1)) = l.countP (fun y => decide (y ≤ o)) := by
  apply List.countP_congr
  intro x _
  simp [Nat.lt_succ_iff]

lemma totalSize_eq_sum (f : RawStenciledFile) (hwf : f.WF) :
    f.totalSize = f.sizes.sum := by
  obtain ⟨hc, -, -, -⟩ := hwf
  rw [RawStenciledFile.totalSize, hc, cumsizesOf_getLastD]

/-- On a well-formed table, `_findStencil` at a nonnegative offset returns
the number of inner cumulative boundaries that are at most the offset. -/
lemma findStencil_natCast (f : RawStenciledFile) (hwf : f.WF) (o : Nat) :
    f._findStencil (o : Int) =
      .ok ((cumsizesAux 0 f.sizes).countP (fun y => decide (y ≤ o))) := by
  obtain ⟨hc, -, -, -⟩ := hwf
  have h0 : ¬ ((o : Int) < 0) := by omega
  have htoNat : ((o : Int).toNat) = o := by omega
  have hb : bisect_left f.cumsizes ((o : Int).toNat + 1) =
      (cumsizesAux 0 f.sizes).countP (fun y => decide (y ≤ o)) + 1 := by
    rw [htoNat, hc]
    unfold bisect_left cumsizesOf
    rw [List.countP_cons, countP_lt_succ_eq_le]
    simp
  unfold RawStenciledFile._findStencil
  rw [if_neg h0, hb]
  have h1 : ¬ ((((cumsizesAux 0 f.sizes).countP (fun y => decide (y ≤ o)) + 1 : Nat) :
      Int) - 1 < 0) := by omega
  rw [if_neg h1]
  congr 1
  omega

lemma findStencil_spec_lt (f : RawStenciledFile) (hwf : f.WF) (o : Nat)
    (ho : o < f.sizes.sum) :
    ∃ i, f._findStencil (o : Int) = .ok i ∧ i < f.sizes.length ∧
      f.cumsizes.getD i 0 ≤ o ∧ o < f.cumsizes.getD (i + 1) 0 := by
  have hc := hwf.1
  have hpos := hwf.2.2.2
  obtain ⟨hlt, -⟩ := countP_cumsizesAux_main f.sizes hpos 0 o (Nat.zero_le o)
  obtain ⟨c1, c2, c3⟩ := hlt (by omega)
  refine ⟨_, findStencil_natCast f hwf o, c1, ?_, ?_⟩
  · rw [hc]; exact c2
  · rw [hc]; exact c3

lemma findStencil_spec_ge (f : RawStenciledFile) (hwf : f.WF) (o : Nat)
    (ho : f.sizes.sum ≤ o) :
    f._findStencil (o : Int) = .ok f.sizes.length := by
  have hpos := hwf.2.2.2
  obtain ⟨-, hge⟩ := countP_cumsizesAux_main f.sizes hpos 0 o (Nat.zero_le o)
  rw [findStencil_natCast f hwf o, hge (by omega)]

lemma stencil_index_unique (f : RawStenciledFile) (hwf : f.WF) (o i j : Nat)
    (hi : i < f.sizes.length) (hj : j < f.sizes.length)
    (h1 : f.cumsizes.getD i 0 ≤ o) (h2 : o < f.cumsizes.getD (i + 1) 0)
    (h3 : f.cumsizes.getD j 0 ≤ o) (h4 : o < f.cumsizes.getD (j + 1) 0) : i = j := by
  obtain ⟨hc, -, -, -⟩ := hwf
  rw [hc] at h1 h2 h3 h4
  rcases Nat.lt_trichotomy i j with h | h | h
  · exfalso
    have hle : (cumsizesOf f.sizes).getD (i + 1) 0 ≤ (cumsizesOf f.sizes).getD j 0 := by
      have := cumsizesOf_getD_mono f.sizes (i + 1) (j - (i + 1)) (by omega)
      rwa [show i + 1 + (j - (i + 1)) = j by omega] at this
    omega
  · exact h
  · exfalso
    have hle : (cumsizesOf f.sizes).getD (j + 1) 0 ≤ (cumsizesOf f.sizes).getD i 0 := by
      have := cumsizesOf_getD_mono f.sizes (j + 1) (i - (j + 1)) (by omega)
      rwa [show j + 1 + (i - (j + 1)) = i by omega] at this
    omega

/-! ### Characterization of a successful `read` -/

/-- The `readableSize` a successful `read` hands to the source: the
requested size (or, for the default `-1`, the remaining virtual size)
capped at the bytes remaining in stencil `i` after the cursor `o`. -/
def readSizeOf (f : RawStenciledFile) (o i : Nat) (size : Int) : Int :=
  min (if size = -1 then (f.sizes.sum : Int) - (o : Int) else size)
    ((f.sizes.getD i 0 - (o - f.cumsizes.getD i 0) : Nat) : Int)

/-- A `read` whose cursor `o` lies inside stencil `i` (source not closed)
returns exactly the bytes of one source-level read of `readSizeOf` bytes
at source offset `offsets[i] + (o - cumsizes[i])`, advances the cursor by
the number of bytes obtained, and issues exactly that one seek+read pair. -/
lemma read_char (f : RawStenciledFile) (hwf : f.WF) (o : Nat)
    (hoff : f.offset = (o : Int)) (size : Int)
    (i : Nat) (hfind : f._findStencil f.offset = .ok i) (hi : i < f.sizes.length)
    (h2 : f.cumsizes.getD i 0 ≤ o) (h3 : o < f.cumsizes.getD (i + 1) 0)
    (hcl : (f.fileObjects.getD i emptyFileObject).closed = false) :
    f.read size =
      (.ok ((f.fileObjects.getD i emptyFileObject).readAt
          (f.offsets.getD i 0 + (o - f.cumsizes.getD i 0)) (readSizeOf f o i size)),
        { f with offset := (o : Int) + ((f.fileObjects.getD i emptyFileObject).readAt
            (f.offsets.getD i 0 + (o - f.cumsizes.getD i 0))
            (readSizeOf f o i size)).length },
        [SourceOp.seek i (f.offsets.getD i 0 + (o - f.cumsizes.getD i 0)),
          SourceOp.srcRead i (readSizeOf f o i size)]) := by
  have hc := hwf.1
  have hsucc : f.cumsizes.getD (i + 1) 0 = f.cumsizes.getD i 0 + f.sizes.getD i 0 := by
    rw [hc]; exact cumsizesOf_getD_succ f.sizes i hi
  have hlast : f.cumsizes.getLastD 0 = f.sizes.sum := by
    rw [hc]; exact cumsizesOf_getLastD f.sizes
  have hile : ¬ (f.sizes.length ≤ i) := by omega
  have hnneg : ¬ ((o : Int) - (f.cumsizes.getD i 0 : Int) < 0) := by omega
  have hnbig : ¬ ((f.sizes.getD i 0 : Int) ≤ (o : Int) - (f.cumsizes.getD i 0 : Int)) := by
    omega
  have htoNat : ((o : Int) - (f.cumsizes.getD i 0 : Int)).toNat =
      o - f.cumsizes.getD i 0 := by omega
  have hrs : min (if size = -1 then (f.cumsizes.getLastD 0 : Int) - (o : Int) else size)
      ((f.sizes.getD i 0 : Int) - ((o : Int) - (f.cumsizes.getD i 0 : Int))) =
      readSizeOf f o i size := by
    rw [hlast, readSizeOf]
    congr 1
    omega
  unfold RawStenciledFile.read
  rw [hfind, hoff]
  simp only [if_neg hile, hcl, Bool.false_eq_true, if_false, if_neg hnneg, if_neg hnbig,
    htoNat, hrs]

/-! ### What a successful construction produces -/

lemma init_ok_elim (fs : List (FileObject × Int × Int)) (f : RawStenciledFile)
    (h : RawStenciledFile.init fs = .ok f) :
    f.offset = 0 ∧
    f.offsets = (fs.filter (fun x => decide (0 < x.2.2))).map (fun x => x.2.1.toNat) ∧
    f.sizes = (fs.filter (fun x => decide (0 < x.2.2))).map (fun x => x.2.2.toNat) ∧
    f.fileObjects = (fs.filter (fun x => decide (0 < x.2.2))).map (fun x => x.1) ∧
    f.cumsizes = cumsizesOf f.sizes := by
  simp only [RawStenciledFile.init] at h
  split at h
  · exact Except.noConfusion h
  · split at h
    · exact Except.noConfusion h
    · split at h
      · exact Except.noConfusion h
      · injection h with h2
        subst h2
        exact ⟨rfl, rfl, rfl, rfl, rfl⟩

lemma init_WF (fs : List (FileObject × Int × Int)) (f : RawStenciledFile)
    (h : RawStenciledFile.init fs = .ok f) : f.WF ∧ f.offset = 0 := by
  obtain ⟨h0, ho, hs, hfo, hcum⟩ := init_ok_elim fs f h
  refine ⟨⟨hcum, ?_, ?_, ?_⟩, h0⟩
  · rw [ho, hs]; simp
  · rw [hfo, hs]; simp
  · intro s hsmem
    rw [hs] at hsmem
    obtain ⟨x, hx, rfl⟩ := List.mem_map.mp hsmem
    have hfilt := List.of_mem_filter hx
    simp only [decide_eq_true_eq] at hfilt
    omega

/-! ### State preservation -/

lemma read_state_eq (f : RawStenciledFile) (size : Int) :
    ∃ z : Int, (f.read size).2.1 = { f with offset := z } := by
  unfold RawStenciledFile.read
  dsimp only
  repeat' split
  all_goals exact ⟨_, rfl⟩

lemma seek_state_eq (f : RawStenciledFile) (delta : Int) (whence : Nat) :
    ∃ z : Int, (f.seek delta whence).2 = { f with offset := z } := by
  unfold RawStenciledFile.seek
  dsimp only
  repeat' split
  all_goals exact ⟨_, rfl⟩

/-! ### Helper equations for `seek` -/

lemma seek_set_eq (f : RawStenciledFile) (delta : Int) :
    f.seek delta SEEK_SET =
      (if delta < 0 then (.error .valueError, { f with offset := delta })
       else (.ok delta, { f with offset := delta })) := rfl

lemma seek_cur_eq (f : RawStenciledFile) (delta : Int) :
    f.seek delta SEEK_CUR =
      (if f.offset + delta < 0 then
        (.error .valueError, { f with offset := f.offset + delta })
       else (.ok (f.offset + delta), { f with offset := f.offset + delta })) := rfl

lemma seek_end_eq (f : RawStenciledFile) (delta : Int) :
    f.seek delta SEEK_END =
      (if (f.cumsizes.getLastD 0 : Int) + delta < 0 then
        (.error .valueError, { f with offset := (f.cumsizes.getLastD 0 : Int) + delta })
       else (.ok ((f.cumsizes.getLastD 0 : Int) + delta),
        { f with offset := (f.cumsizes.getLastD 0 : Int) + delta })) := rfl

/-! ### Concrete fixtures used by witnesses and counterexamples -/

instance instDecEqExcept {ε α : Type} [DecidableEq ε] [DecidableEq α] :
    DecidableEq (Except ε α) := fun a b =>
  match a, b with
  | .error e, .error e2 =>
    if h : e = e2 then .isTrue (congrArg Except.error h)
    else .isFalse (fun hc => h (Except.error.inj hc))
  | .ok x, .ok y =>
    if h : x = y then .isTrue (congrArg Except.ok h)
    else .isFalse (fun hc => h (Except.ok.inj hc))
  | .error _, .ok _ => .isFalse (fun hc => Except.noConfusion hc)
  | .ok _, .error _ => .isFalse (fun hc => Except.noConfusion hc)

def srcX : FileObject :=
  ⟨[10, 20, 30, 40, 50, 60, 70, 80, 90, 100, 110, 120], true, false⟩

/-- The table built by `init [(srcX, 0, 3), (srcX, 5, 3)]`. -/
def fTwo : RawStenciledFile := ⟨0, [0, 5], [3, 3], [srcX, srcX], [0, 3, 6]⟩

/-- The table built by `init [(srcX, 0, 10)]`. -/
def fTen : RawStenciledFile := ⟨0, [0], [10], [srcX], [0, 10]⟩

/-- `fTen` after `seek(5, SEEK_SET)`. -/
def fTenAt5 : RawStenciledFile := ⟨5, [0], [10], [srcX], [0, 10]⟩

def closedSrc : FileObject := ⟨[1, 2, 3], true, true⟩

/-- A table over a source whose owner has already closed it. -/
def fClosed : RawStenciledFile := ⟨0, [0], [3], [closedSrc], [0, 3]⟩

lemma fTwo_WF : fTwo.WF := ⟨by decide, by decide, by decide, by decide⟩

lemma fTen_WF : fTen.WF := ⟨by decide, by decide, by decide, by decide⟩

lemma fClosed_WF : fClosed.WF := ⟨by decide, by decide, by decide, by decide⟩

/-! ### Claims -/

/-- C2: on a normalized table, the lookup `_findStencil` returns, for every
offset below the total size, the unique stencil index whose cumulative
interval contains it; for offsets at or past the total size it returns the
number of stencils, which `read` treats as the end-of-stream sentinel,
returning an empty result without touching any source. -/
theorem claim_C2_lookup (f : RawStenciledFile) (hwf : f.WF) (o : Nat) :
    (o < f.totalSize →
      ∃ i, f._findStencil (o : Int) = .ok i ∧ i < f.sizes.length ∧
        f.cumsizes.getD i 0 ≤ o ∧ o < f.cumsizes.getD (i + 1) 0 ∧
        ∀ j, j < f.sizes.length → f.cumsizes.getD j 0 ≤ o →
          o < f.cumsizes.getD (j + 1) 0 → j = i) ∧
    (f.totalSize ≤ o →
      f._findStencil (o : Int) = .ok f.sizes.length ∧
      ∀ size : Int, f.offset = (o : Int) → f.read size = (.ok [], f, [])) := by
  have hsum := totalSize_eq_sum f hwf
  constructor
  · intro ho
    rw [hsum] at ho
    obtain ⟨i, hfind, hi, hle, hlt⟩ := findStencil_spec_lt f hwf o ho
    exact ⟨i, hfind, hi, hle, hlt, fun j hj hle' hlt' =>
      stencil_index_unique f hwf o j i hj hi hle' hlt' hle hlt⟩
  · intro ho
    rw [hsum] at ho
    have hfind := findStencil_spec_ge f hwf o ho
    refine ⟨hfind, fun size hoff => ?_⟩
    unfold RawStenciledFile.read
    rw [hoff, hfind]
    simp

theorem claim_C2_witness :
    fTwo._findStencil ((4 : Nat) : Int) = .ok 1 ∧
    fTwo._findStencil ((6 : Nat) : Int) = .ok 2 := by
  have h4 := (claim_C2_lookup fTwo fTwo_WF 4).1 (by decide)
  have h6 := (claim_C2_lookup fTwo fTwo_WF 6).2 (by decide)
  obtain ⟨i, hfind, hi, hle, hlt, huniq⟩ := h4
  have hi1 : 1 = i := huniq 1 (by decide) (by decide) (by decide)
  rw [← hi1] at hfind
  exact ⟨hfind, h6.1⟩

/-- C4: a successfully constructed table has no zero-length stencils,
`cumsizes` has one more entry than the stencil count, starts at 0 and
satisfies the cumulative recurrence, the total size is the sum of the
positive input lengths, and neither `read` nor `seek` ever modifies the
table. -/
theorem claim_C4_table_invariants (fs : List (FileObject × Int × Int))
    (f : RawStenciledFile) (h : RawStenciledFile.init fs = .ok f) :
    (∀ s ∈ f.sizes, 0 < s) ∧
    f.cumsizes.length = f.sizes.length + 1 ∧
    f.cumsizes.getD 0 0 = 0 ∧
    (∀ i, i < f.sizes.length →
      f.cumsizes.getD (i + 1) 0 = f.cumsizes.getD i 0 + f.sizes.getD i 0) ∧
    f.totalSize =
      ((fs.filter (fun x => decide (0 < x.2.2))).map (fun x => x.2.2.toNat)).sum ∧
    (∀ size : Int,
      ((f.read size).2.1).offsets = f.offsets ∧ ((f.read size).2.1).sizes = f.sizes ∧
      ((f.read size).2.1).fileObjects = f.fileObjects ∧
      ((f.read size).2.1).cumsizes = f.cumsizes) ∧
    ∀ (delta : Int) (whence : Nat),
      ((f.seek delta whence).2).offsets = f.offsets ∧
      ((f.seek delta whence).2).sizes = f.sizes ∧
      ((f.seek delta whence).2).fileObjects = f.fileObjects ∧
      ((f.seek delta whence).2).cumsizes = f.cumsizes := by
  obtain ⟨hwf, -⟩ := init_WF fs f h
  obtain ⟨-, -, hs, -, -⟩ := init_ok_elim fs f h
  refine ⟨hwf.2.2.2, ?_, ?_, ?_, ?_, ?_, ?_⟩
  · rw [hwf.1, cumsizesOf_length]
  · rw [hwf.1]
    exact cumsizesOf_getD_zero f.sizes
  · intro i hi
    rw [hwf.1]
    exact cumsizesOf_getD_succ f.sizes i hi
  · rw [totalSize_eq_sum f hwf, hs]
  · intro size
    obtain ⟨z, hz⟩ := read_state_eq f size
    rw [hz]
    exact ⟨rfl, rfl, rfl, rfl⟩
  · intro delta whence
    obtain ⟨z, hz⟩ := seek_state_eq f delta whence
    rw [hz]
    exact ⟨rfl, rfl, rfl, rfl⟩

theorem claim_C4_witness :
    (∀ s ∈ fTwo.sizes, 0 < s) ∧
    fTwo.totalSize = (([((srcX : FileObject), (0 : Int), (3 : Int)), (srcX, 5, 3)].filter
      (fun x => decide (0 < x.2.2))).map (fun x => x.2.2.toNat)).sum := by
  have h := claim_C4_table_invariants [(srcX, 0, 3), (srcX, 5, 3)] fTwo rfl
  exact ⟨h.1, h.2.2.2.2.1⟩

/-- C5 counterexample: starting from the constructed table seeked to
cursor 5, `seek(-10, SEEK_SET)` raises, but the cursor is NOT left
unchanged at 5 — it is left at the negative computed value `-10`. -/
theorem claim_C5_counterexample :
    RawStenciledFile.init [(srcX, 0, 10)] = .ok fTen ∧
    fTen.seek 5 SEEK_SET = (.ok 5, fTenAt5) ∧
    fTenAt5.offset = 5 ∧
    (fTenAt5.seek (-10) SEEK_SET).1 = .error .valueError ∧
    ((fTenAt5.seek (-10) SEEK_SET).2).offset = -10 := by decide

/-- C5 (amended): `seek` computes the new cursor as `delta` (SET),
`cursor + delta` (CUR) or `totalSize + delta` (END).  If the result is
negative the call fails — but the cursor is left at the negative computed
value, not at its previous value.  Otherwise (with no upper clamp) the
cursor is set to the computed value and that value is returned. -/
theorem claim_C5_seek_amended (f : RawStenciledFile) (delta : Int)
    (whence : Nat) (new : Int)
    (hw : (whence = SEEK_SET ∧ new = delta) ∨
      (whence = SEEK_CUR ∧ new = f.offset + delta) ∨
      (whence = SEEK_END ∧ new = (f.cumsizes.getLastD 0 : Int) + delta)) :
    (new < 0 → f.seek delta whence = (.error .valueError, { f with offset := new })) ∧
    (0 ≤ new → f.seek delta whence = (.ok new, { f with offset := new })) := by
  rcases hw with ⟨rfl, rfl⟩ | ⟨rfl, rfl⟩ | ⟨rfl, rfl⟩
  · exact ⟨fun hneg => by rw [seek_set_eq, if_pos hneg],
      fun hpos => by rw [seek_set_eq, if_neg (by omega)]⟩
  · exact ⟨fun hneg => by rw [seek_cur_eq, if_pos hneg],
      fun hpos => by rw [seek_cur_eq, if_neg (by omega)]⟩
  · exact ⟨fun hneg => by rw [seek_end_eq, if_pos hneg],
      fun hpos => by rw [seek_end_eq, if_neg (by omega)]⟩

theorem claim_C5_witness :
    (fTenAt5.seek (-10) SEEK_SET = (.error .valueError, { fTenAt5 with offset := -10 })) ∧
    (fTen.seek 3 SEEK_CUR = (.ok 3, { fTen with offset := 3 })) := by
  constructor
  · exact (claim_C5_seek_amended fTenAt5 (-10) SEEK_SET (-10)
      (Or.inl ⟨rfl, rfl⟩)).1 (by decide)
  · exact (claim_C5_seek_amended fTen 3 SEEK_CUR (fTen.offset + 3)
      (Or.inr (Or.inl ⟨rfl, rfl⟩))).2 (by decide)

/-- C10: a `seek` whose whence is none of SET, CUR, END does not fail: it
leaves the cursor unchanged and returns it (for a nonnegative cursor). -/
theorem claim_C10_unknown_whence (f : RawStenciledFile) (delta : Int) (whence : Nat)
    (h1 : whence ≠ SEEK_SET) (h2 : whence ≠ SEEK_CUR) (h3 : whence ≠ SEEK_END)
    (hoff : 0 ≤ f.offset) :
    f.seek delta whence = (.ok f.offset, f) := by
  unfold RawStenciledFile.seek
  rw [if_neg h2, if_neg h3, if_neg h1]
  dsimp only
  rw [if_neg (by omega : ¬ f.offset < 0)]

theorem claim_C10_witness : fTen.seek 7 3 = (.ok 0, fTen) :=
  claim_C10_unknown_whence fTen 7 3 (by decide) (by decide) (by decide) (by decide)

/-- C8: a `read` whose cursor lies (below the total size) inside a stencil
whose source has its closed flag set raises a `ValueError`, issues no
source-level operation (in particular no retry and no consumed bytes),
and leaves the object — cursor included — unchanged. -/
theorem claim_C8_closed_source (f : RawStenciledFile) (hwf : f.WF) (o : Nat)
    (hoff : f.offset = (o : Int)) (ho : o < f.totalSize) (i : Nat)
    (hfind : f._findStencil f.offset = .ok i)
    (hcl : (f.fileObjects.getD i emptyFileObject).closed = true) (size : Int) :
    f.read size = (.error .valueError, f, []) := by
  have hsum := totalSize_eq_sum f hwf
  rw [hsum] at ho
  obtain ⟨i2, hfind2, hi2, hle2, hlt2⟩ := findStencil_spec_lt f hwf o ho
  rw [hoff] at hfind
  rw [hfind] at hfind2
  injection hfind2 with hii
  subst hii
  unfold RawStenciledFile.read
  rw [hoff, hfind]
  dsimp only
  rw [if_neg (by omega : ¬ f.sizes.length ≤ i), if_pos hcl]

theorem claim_C8_witness : fClosed.read 5 = (.error .valueError, fClosed, []) :=
  claim_C8_closed_source fClosed fClosed_WF 0 rfl (by decide) 0 (by decide) (by decide) 5

/-! ### Length and emptiness of a source-level read -/

lemma readAt_natCast_length_le (fo : FileObject) (pos k : Nat) :
    (fo.readAt pos (k : Int)).length ≤ k := by
  unfold FileObject.readAt
  rw [if_neg (by omega : ¬ ((k : Int) < 0))]
  have hk : ((k : Int)).toNat = k := by omega
  rw [hk]
  have := List.length_take k (fo.data.drop pos)
  omega

lemma readAt_eq_nil_iff (fo : FileObject) (pos : Nat) (count : Int)
    (hpos : pos < fo.data.length) :
    fo.readAt pos count = [] ↔ count = 0 := by
  unfold FileObject.readAt
  have hdlen : (fo.data.drop pos).length = fo.data.length - pos :=
    List.length_drop _ _
  by_cases hc : count < 0
  · rw [if_pos hc]
    constructor
    · intro h
      have hl := congrArg List.length h
      rw [hdlen] at hl
      simp at hl
      omega
    · intro h
      exact absurd h (by omega)
  · rw [if_neg hc]
    constructor
    · intro h
      have hl := congrArg List.length h
      rw [List.length_take, hdlen] at hl
      simp at hl
      omega
    · intro h
      rw [h]
      simp

/-- C1: for a cursor `o < totalSize` and requested `maxBytes = size ≥ 0`
(over open sources), `read` issues exactly one source-level seek+read pair,
on stencil `i = lookup(o)` at source position `offsets[i] + d` with
`d = o - cumsizes[i]`, for `k = min(size, sizes[i] - d)` bytes; it returns
exactly the bytes of that single source read, advances the cursor by the
number of bytes actually returned, and the returned bytes never extend
past stencil `i`'s boundary. -/
theorem claim_C1_single_stencil_read (f : RawStenciledFile) (hwf : f.WF) (o : Nat)
    (hoff : f.offset = (o : Int)) (ho : o < f.totalSize) (size : Int) (hsz : 0 ≤ size)
    (hopen : ∀ fo ∈ f.fileObjects, fo.closed = false) :
    ∃ i d k, f._findStencil f.offset = .ok i ∧ i < f.sizes.length ∧
      d = o - f.cumsizes.getD i 0 ∧ f.cumsizes.getD i 0 ≤ o ∧
      k = min size.toNat (f.sizes.getD i 0 - d) ∧
      f.read size =
        (.ok ((f.fileObjects.getD i emptyFileObject).readAt
            (f.offsets.getD i 0 + d) (k : Int)),
          { f with offset := (o : Int) + ((f.fileObjects.getD i emptyFileObject).readAt
              (f.offsets.getD i 0 + d) (k : Int)).length },
          [SourceOp.seek i (f.offsets.getD i 0 + d), SourceOp.srcRead i (k : Int)]) ∧
      d + ((f.fileObjects.getD i emptyFileObject).readAt
          (f.offsets.getD i 0 + d) (k : Int)).length ≤ f.sizes.getD i 0 := by
  have hsum := totalSize_eq_sum f hwf
  rw [hsum] at ho
  obtain ⟨i, hfind0, hi, hle, hlt⟩ := findStencil_spec_lt f hwf o ho
  have hfind : f._findStencil f.offset = .ok i := by rw [hoff]; exact hfind0
  have hcl : (f.fileObjects.getD i emptyFileObject).closed = false :=
    hopen _ (getD_mem_of_lt emptyFileObject f.fileObjects i (by rw [hwf.2.2.1]; exact hi))
  have hchar := read_char f hwf o hoff size i hfind hi hle hlt hcl
  have hsucc : f.cumsizes.getD (i + 1) 0 = f.cumsizes.getD i 0 + f.sizes.getD i 0 := by
    rw [hwf.1]; exact cumsizesOf_getD_succ f.sizes i hi
  have hrs : readSizeOf f o i size =
      ((min size.toNat (f.sizes.getD i 0 - (o - f.cumsizes.getD i 0)) : Nat) : Int) := by
    unfold readSizeOf
    rw [if_neg (by omega : ¬ size = -1)]
    omega
  refine ⟨i, o - f.cumsizes.getD i 0,
    min size.toNat (f.sizes.getD i 0 - (o - f.cumsizes.getD i 0)),
    hfind, hi, rfl, hle, rfl, ?_, ?_⟩
  · rw [hchar, hrs]
  · have hlen := readAt_natCast_length_le (f.fileObjects.getD i emptyFileObject)
      (f.offsets.getD i 0 + (o - f.cumsizes.getD i 0))
      (min size.toNat (f.sizes.getD i 0 - (o - f.cumsizes.getD i 0)))
    omega

theorem claim_C1_witness :
    fTwo.read 5 = (.ok [10, 20, 30], { fTwo with offset := 3 },
      [SourceOp.seek 0 0, SourceOp.srcRead 0 3]) := by
  obtain ⟨i, d, k, hfind, hi, hd, hle, hk, heq, hbound⟩ :=
    claim_C1_single_stencil_read fTwo fTwo_WF 0 rfl (by decide) 5 (by decide) (by decide)
  have h2 : fTwo._findStencil fTwo.offset = .ok 0 := by decide
  rw [h2] at hfind
  have hi0 : i = 0 := (Except.ok.inj hfind.symm)
  subst hi0
  subst hd
  subst hk
  rw [heq]
  decide

/-- The table built by `init [(srcX, 0, 3)]`. -/
def fThree : RawStenciledFile := ⟨0, [0], [3], [srcX], [0, 3]⟩

lemma fThree_WF : fThree.WF := ⟨by decide, by decide, by decide, by decide⟩

lemma fThree_InBounds : fThree.InBounds := by
  intro i hi
  have h1 : fThree.sizes.length = 1 := rfl
  have h0 : i = 0 := by omega
  subst h0
  decide

/-- C6 counterexample: with the cursor at 0, strictly below the total
size 3 of a table over an open, in-bounds source, `read(0)` nevertheless
returns the empty byte string — refuting "empty iff the cursor is at or
beyond totalSize". -/
theorem claim_C6_counterexample :
    RawStenciledFile.init [(srcX, 0, 3)] = .ok fThree ∧
    fThree.offset = 0 ∧ fThree.totalSize = 3 ∧
    (fThree.read 0).1 = .ok [] := by decide

/-- C6 (amended): over open, in-bounds sources and a nonnegative cursor,
`read` succeeds and returns the empty byte string iff the cursor is at or
beyond `totalSize` OR the requested size is 0; in particular a non-empty
result is returned whenever the cursor is below `totalSize` and the
requested size is nonzero (including the unbounded default `-1`). -/
theorem claim_C6_read_empty_iff (f : RawStenciledFile) (hwf : f.WF)
    (hib : f.InBounds) (hopen : ∀ fo ∈ f.fileObjects, fo.closed = false)
    (o : Nat) (hoff : f.offset = (o : Int)) (size : Int) :
    ∃ l f2 tr, f.read size = (.ok l, f2, tr) ∧
      (l = [] ↔ (f.totalSize ≤ o ∨ size = 0)) := by
  have hsum := totalSize_eq_sum f hwf
  by_cases ho : o < f.sizes.sum
  · obtain ⟨i, hfind0, hi, hle, hlt⟩ := findStencil_spec_lt f hwf o ho
    have hfind : f._findStencil f.offset = .ok i := by rw [hoff]; exact hfind0
    have hcl : (f.fileObjects.getD i emptyFileObject).closed = false :=
      hopen _ (getD_mem_of_lt emptyFileObject f.fileObjects i
        (by rw [hwf.2.2.1]; exact hi))
    have hchar := read_char f hwf o hoff size i hfind hi hle hlt hcl
    have hsucc : f.cumsizes.getD (i + 1) 0 = f.cumsizes.getD i 0 + f.sizes.getD i 0 := by
      rw [hwf.1]; exact cumsizesOf_getD_succ f.sizes i hi
    have hbound := hib i hi
    have hposn : f.offsets.getD i 0 + (o - f.cumsizes.getD i 0) <
        (f.fileObjects.getD i emptyFileObject).data.length := by omega
    refine ⟨_, _, _, hchar, ?_⟩
    rw [readAt_eq_nil_iff _ _ _ hposn]
    have hkey : readSizeOf f o i size = 0 ↔ size = 0 := by
      unfold readSizeOf
      by_cases hs1 : size = -1
      · rw [if_pos hs1]
        constructor
        · intro h; exfalso; omega
        · intro h; exact absurd h (by omega)
      · rw [if_neg hs1]
        omega
    rw [hkey]
    constructor
    · intro h; exact Or.inr h
    · rintro (h | h)
      · exfalso; omega
      · exact h
  · have hfind := findStencil_spec_ge f hwf o (by omega)
    refine ⟨[], f, [], ?_, ?_⟩
    · unfold RawStenciledFile.read
      rw [hoff, hfind]
      simp
    · constructor
      · intro _; left; omega
      · intro _; rfl

theorem claim_C6_witness :
    ∃ l f2 tr, fThree.read (-1) = (.ok l, f2, tr) ∧
      (l = [] ↔ (fThree.totalSize ≤ 0 ∨ (-1 : Int) = 0)) :=
  claim_C6_read_empty_iff fThree fThree_WF fThree_InBounds (by decide) 0 rfl (-1)

/-! ### Reading the whole virtual file stencil by stencil -/

lemma tableContentFrom_nil_left (os ss : List Nat) :
    tableContentFrom [] os ss = [] := by
  cases os <;> cases ss <;> rfl

lemma tableContentFrom_drop_step (fos : List FileObject) (os ss : List Nat)
    (i : Nat) (hfo : i < fos.length) (ho : i < os.length) (hs : i < ss.length) :
    tableContentFrom (fos.drop i) (os.drop i) (ss.drop i) =
      ((fos.getD i emptyFileObject).data.drop (os.getD i 0)).take (ss.getD i 0) ++
        tableContentFrom (fos.drop (i + 1)) (os.drop (i + 1)) (ss.drop (i + 1)) := by
  rw [drop_eq_getD_cons emptyFileObject fos i hfo, drop_eq_getD_cons 0 os i ho,
    drop_eq_getD_cons 0 ss i hs]
  rfl

lemma stencilContent_cons (x : FileObject × Int × Int)
    (t : List (FileObject × Int × Int)) :
    stencilContent (x :: t) =
      (x.1.data.drop x.2.1.toNat).take x.2.2.toNat ++ stencilContent t := by
  unfold stencilContent
  rw [List.map_cons, List.flatten_cons]

lemma tableContentFrom_maps (l : List (FileObject × Int × Int)) :
    tableContentFrom (l.map (fun x => x.1)) (l.map (fun x => x.2.1.toNat))
      (l.map (fun x => x.2.2.toNat)) = stencilContent l := by
  induction l with
  | nil => rfl
  | cons x t ih =>
    rw [List.map_cons, List.map_cons, List.map_cons, stencilContent_cons, ← ih]
    rfl

lemma stencilContent_filter_pos (fs : List (FileObject × Int × Int)) :
    stencilContent (fs.filter (fun x => decide (0 < x.2.2))) = stencilContent fs := by
  induction fs with
  | nil => rfl
  | cons x t ih =>
    by_cases hx : 0 < x.2.2
    · rw [List.filter_cons_of_pos (by simpa using hx), stencilContent_cons,
        stencilContent_cons, ih]
    · rw [List.filter_cons_of_neg (by simpa using hx), stencilContent_cons, ih]
      have hz : x.2.2.toNat = 0 := by omega
      rw [hz]
      simp

/-- Main induction for C3: starting with the cursor on the boundary
`cumsizes[i]`, the read-until-empty loop returns exactly the concatenated
contents of stencils `i, i+1, ...`. -/
lemma readLoop_spec (k : Nat) :
    ∀ (f : RawStenciledFile), f.WF → f.InBounds →
      (∀ fo ∈ f.fileObjects, fo.closed = false) →
      ∀ i, i + k = f.sizes.length → f.offset = (f.cumsizes.getD i 0 : Int) →
      RawStenciledFile.readLoop (k + 1) f =
        tableContentFrom (f.fileObjects.drop i) (f.offsets.drop i) (f.sizes.drop i) := by
  induction k with
  | zero =>
    intro f hwf hib hopen i hik hoff
    have hn : i = f.sizes.length := by omega
    subst hn
    have hgetD : f.cumsizes.getD f.sizes.length 0 = f.sizes.sum := by
      rw [hwf.1]; exact cumsizesOf_getD_length f.sizes
    have hfind := findStencil_spec_ge f hwf (f.cumsizes.getD f.sizes.length 0) (by omega)
    have hread : f.read (-1) = (.ok [], f, []) := by
      unfold RawStenciledFile.read
      rw [hoff, hfind]
      simp
    have h1 : f.fileObjects.drop f.sizes.length = [] := by
      rw [← hwf.2.2.1]; exact List.drop_length _
    unfold RawStenciledFile.readLoop
    rw [hread, h1, tableContentFrom_nil_left]
    simp
  | succ m ih =>
    intro f hwf hib hopen i hik hoff
    have hi : i < f.sizes.length := by omega
    have hsucc : f.cumsizes.getD (i + 1) 0 = f.cumsizes.getD i 0 + f.sizes.getD i 0 := by
      rw [hwf.1]; exact cumsizesOf_getD_succ f.sizes i hi
    have hpos : 0 < f.sizes.getD i 0 := getD_pos_of_forall_pos hwf.2.2.2 hi
    have hle_sum : f.cumsizes.getD (i + 1) 0 ≤ f.sizes.sum := by
      rw [hwf.1]; exact cumsizesOf_getD_le_sum f.sizes (i + 1) (by omega)
    have hci_lt : f.cumsizes.getD i 0 < f.sizes.sum := by omega
    obtain ⟨i2, hfind2, hi2, hle2, hlt2⟩ :=
      findStencil_spec_lt f hwf (f.cumsizes.getD i 0) hci_lt
    have hii : i2 = i := stencil_index_unique f hwf (f.cumsizes.getD i 0) i2 i hi2 hi
      hle2 hlt2 (le_refl _) (by omega)
    subst hii
    have hfind : f._findStencil f.offset = .ok i2 := by rw [hoff]; exact hfind2
    have hcl : (f.fileObjects.getD i2 emptyFileObject).closed = false :=
      hopen _ (getD_mem_of_lt emptyFileObject f.fileObjects i2
        (by rw [hwf.2.2.1]; exact hi))
    have hchar := read_char f hwf (f.cumsizes.getD i2 0) hoff (-1) i2 hfind hi
      (le_refl _) (by omega) hcl
    have hrs : readSizeOf f (f.cumsizes.getD i2 0) i2 (-1) = (f.sizes.getD i2 0 : Int) := by
      unfold readSizeOf
      rw [if_pos rfl]
      omega
    have hiblen := hib i2 hi
    have hzero : f.cumsizes.getD i2 0 - f.cumsizes.getD i2 0 = 0 := by omega
    have htmp : (f.fileObjects.getD i2 emptyFileObject).readAt
        (f.offsets.getD i2 0 + (f.cumsizes.getD i2 0 - f.cumsizes.getD i2 0))
        (readSizeOf f (f.cumsizes.getD i2 0) i2 (-1)) =
        ((f.fileObjects.getD i2 emptyFileObject).data.drop
          (f.offsets.getD i2 0)).take (f.sizes.getD i2 0) := by
      rw [hrs, hzero, Nat.add_zero]
      unfold FileObject.readAt
      rw [if_neg (by omega)]
      have ht : ((f.sizes.getD i2 0 : Int)).toNat = f.sizes.getD i2 0 := by omega
      rw [ht]
    have htmplen : (((f.fileObjects.getD i2 emptyFileObject).data.drop
        (f.offsets.getD i2 0)).take (f.sizes.getD i2 0)).length = f.sizes.getD i2 0 := by
      rw [List.length_take, List.length_drop]
      omega
    have htmpne : ((f.fileObjects.getD i2 emptyFileObject).data.drop
        (f.offsets.getD i2 0)).take (f.sizes.getD i2 0) ≠ [] := by
      intro h
      have hl := congrArg List.length h
      rw [htmplen] at hl
      simp only [List.length_nil] at hl
      omega
    have hIH := ih { f with offset :=
        ((f.cumsizes.getD i2 0 : Int) + (f.sizes.getD i2 0 : Int)) }
      hwf hib hopen (i2 + 1)
      (by show i2 + 1 + m = f.sizes.length; rw [← hik]; ring)
      (by show ((f.cumsizes.getD i2 0 : Int) + (f.sizes.getD i2 0 : Int)) =
        ((f.cumsizes.getD (i2 + 1) 0 : Nat) : Int); rw [hsucc]; push_cast; ring)
    unfold RawStenciledFile.readLoop
    rw [hchar]
    dsimp only
    rw [htmp, htmplen, if_neg htmpne]
    rw [tableContentFrom_drop_step f.fileObjects f.offsets f.sizes i2
      (by rw [hwf.2.2.1]; exact hi) (by rw [hwf.2.1]; exact hi) hi]
    have hcast : ((f.cumsizes.getD i2 0 : Nat) : Int) + ((f.sizes.getD i2 0 : Nat) : Int) =
        ((f.cumsizes.getD i2 0 : Nat) : Int) + ((f.sizes.getD i2 0 : Nat) : Int) := rfl
    rw [hIH]

/-- C3: for every valid stencil list (duplicated and overlapping stencils
into the same source included) whose byte ranges exist in their sources
and whose sources are open, repeatedly calling `read` from cursor 0 until
an empty result reconstructs exactly the ordered concatenation of the
underlying ranges `source[offset : offset + size]` in stencil-list order
(zero-length entries contributing the empty range). -/
theorem claim_C3_repeated_reads (fs : List (FileObject × Int × Int))
    (f : RawStenciledFile) (hinit : RawStenciledFile.init fs = .ok f)
    (hib : ∀ x ∈ fs, x.2.1.toNat + x.2.2.toNat ≤ x.1.data.length)
    (hopen : ∀ x ∈ fs, x.1.closed = false) :
    RawStenciledFile.readLoop (f.sizes.length + 1) f = stencilContent fs := by
  obtain ⟨h0, ho, hs, hfo, hcum⟩ := init_ok_elim fs f hinit
  obtain ⟨hwf, -⟩ := init_WF fs f hinit
  have hibf : f.InBounds := by
    intro i hi
    have hlen : i < (fs.filter (fun x => decide (0 < x.2.2))).length := by
      rw [hs, List.length_map] at hi
      exact hi
    rw [ho, hs, hfo,
      getD_map_of_lt _ 0 (emptyFileObject, (0 : Int), (0 : Int)) _ i hlen,
      getD_map_of_lt _ 0 (emptyFileObject, (0 : Int), (0 : Int)) _ i hlen,
      getD_map_of_lt _ emptyFileObject (emptyFileObject, (0 : Int), (0 : Int)) _ i hlen]
    exact hib _ (List.mem_of_mem_filter
      (getD_mem_of_lt (emptyFileObject, (0 : Int), (0 : Int)) _ i hlen))
  have hopenf : ∀ fo ∈ f.fileObjects, fo.closed = false := by
    intro fo hfo2
    rw [hfo] at hfo2
    obtain ⟨x, hx, rfl⟩ := List.mem_map.mp hfo2
    exact hopen x (List.mem_of_mem_filter hx)
  have hloop := readLoop_spec f.sizes.length f hwf hibf hopenf 0 (by omega)
    (by rw [h0, hwf.1]; rfl)
  rw [List.drop_zero, List.drop_zero, List.drop_zero] at hloop
  rw [hloop, ho, hs, hfo, tableContentFrom_maps, stencilContent_filter_pos]

/-- The table built by `init [(srcX, 0, 3), (srcX, 0, 3)]`: the same range
of the same source duplicated. -/
def fDup : RawStenciledFile := ⟨0, [0, 0], [3, 3], [srcX, srcX], [0, 3, 6]⟩

theorem claim_C3_witness :
    RawStenciledFile.readLoop (fDup.sizes.length + 1) fDup =
      stencilContent [(srcX, 0, 3), (srcX, 0, 3)] ∧
    stencilContent [((srcX : FileObject), (0 : Int), (3 : Int)), (srcX, 0, 3)] =
      [10, 20, 30, 10, 20, 30] :=
  ⟨claim_C3_repeated_reads [(srcX, 0, 3), (srcX, 0, 3)] fDup rfl
    (by decide) (by decide), by decide⟩

/-! ### The joined file -/

lemma init_ok_of_valid (fs : List (FileObject × Int × Int))
    (h1 : ∀ x ∈ fs, 0 ≤ x.2.1) (h2 : ∀ x ∈ fs, 0 ≤ x.2.2)
    (h3 : ∀ x ∈ fs, 0 < x.2.2 → x.1.readable = true) :
    ∃ f, RawStenciledFile.init fs = .ok f := by
  have hall1 : (fs.map (fun x => x.2.1)).all (fun o => decide (0 ≤ o)) = true := by
    rw [List.all_eq_true]
    intro a ha
    obtain ⟨x, hx, rfl⟩ := List.mem_map.mp ha
    simpa using h1 x hx
  have hall2 : (fs.map (fun x => x.2.2)).all (fun s => decide (0 ≤ s)) = true := by
    rw [List.all_eq_true]
    intro a ha
    obtain ⟨x, hx, rfl⟩ := List.mem_map.mp ha
    simpa using h2 x hx
  have hall3 : ((fs.filter (fun x => decide (0 < x.2.2))).map
      (fun x => x.1)).all (fun fo => fo.readable) = true := by
    rw [List.all_eq_true]
    intro a ha
    obtain ⟨x, hx, rfl⟩ := List.mem_map.mp ha
    have hmem := List.mem_of_mem_filter hx
    have hpos := List.of_mem_filter hx
    simp only [decide_eq_true_eq] at hpos
    exact h3 x hmem hpos
  unfold RawStenciledFile.init
  dsimp only
  rw [if_neg (not_not_intro hall1), if_neg (not_not_intro hall2),
    if_neg (not_not_intro hall3)]
  exact ⟨_, rfl⟩

lemma joined_stencils (l : List FileObject) :
    (l.zip (l.map (fun fobj => fobj.data.length))).map
      (fun p => (p.1, (0 : Int), ((if p.2 = 0 then 0 else p.2 : Nat) : Int))) =
    l.map (fun fo => (fo, (0 : Int), (fo.data.length : Int))) := by
  induction l with
  | nil => rfl
  | cons x t ih =>
    simp only [List.map_cons, List.zip_cons_cons, ih]
    congr 1
    by_cases hx : x.data.length = 0
    · rw [if_pos hx, hx]
    · rw [if_neg hx]

lemma sum_filter_lengths (l : List FileObject) :
    ((((l.map (fun fo => (fo, (0 : Int), (fo.data.length : Int)))).filter
      (fun x => decide (0 < x.2.2))).map (fun x => x.2.2.toNat)).sum) =
    (l.map (fun fo => fo.data.length)).sum := by
  induction l with
  | nil => rfl
  | cons x t ih =>
    simp only [List.map_cons]
    by_cases hx : 0 < x.data.length
    · rw [List.filter_cons_of_pos (by simpa using hx)]
      simp only [List.map_cons, List.sum_cons, ih]
      congr 1
    · rw [List.filter_cons_of_neg (by simpa using hx)]
      rw [ih, List.sum_cons]
      omega

lemma stencilContent_joined (l : List FileObject) :
    stencilContent (l.map (fun fo => (fo, (0 : Int), (fo.data.length : Int)))) =
      (l.map (fun fo => fo.data)).flatten := by
  induction l with
  | nil => rfl
  | cons x t ih =>
    rw [List.map_cons, stencilContent_cons, ih, List.map_cons, List.flatten_cons]
    congr 1
    have h0 : ((0 : Int)).toNat = 0 := rfl
    have hl : ((x.data.length : Int)).toNat = x.data.length := by omega
    rw [h0, hl, List.drop_zero, List.take_length]

def srcA : FileObject := ⟨[1, 2, 3, 4], true, false⟩
def srcB : FileObject := ⟨[], true, false⟩
def srcC : FileObject := ⟨[51, 52, 53, 54, 55, 56], true, false⟩

/-- The table built by `JoinedFile.init [srcA, srcB, srcC]`: the zero-size
source is dropped. -/
def fJoined : RawStenciledFile := ⟨0, [0, 0], [4, 6], [srcA, srcC], [0, 4, 10]⟩

/-- C9: the joined file determines each source's size by seeking to its
end, emits one stencil `(source, 0, size)` per source, and presents the
sources concatenated in list order: construction succeeds whenever every
source of positive size is readable, the total size is the sum of the
individual sizes (zero-size sources contributing nothing), the table's
content is the concatenation of the sources' contents in list order, and
for sources of sizes [4, 0, 6] the total size is 10 and the byte at
virtual offset 4 is byte 0 of the third source (value 51). -/
theorem claim_C9_joined_file :
    (∀ file_objects : List FileObject,
      (∀ fo ∈ file_objects, 0 < fo.data.length → fo.readable = true) →
      ∃ f, JoinedFile.init file_objects = .ok f ∧
        f.totalSize = (file_objects.map (fun fo => fo.data.length)).sum ∧
        tableContentFrom f.fileObjects f.offsets f.sizes =
          (file_objects.map (fun fo => fo.data)).flatten) ∧
    (JoinedFile.init [srcA, srcB, srcC] = .ok fJoined ∧
      fJoined.totalSize = 10 ∧
      ((fJoined.seek 4 SEEK_SET).2.read 1).1 = .ok [51]) := by
  constructor
  · intro l hread
    obtain ⟨f, hfeq⟩ := init_ok_of_valid
      (l.map (fun fo => (fo, (0 : Int), (fo.data.length : Int))))
      (by rintro x hx; obtain ⟨fo, -, rfl⟩ := List.mem_map.mp hx; simp)
      (by rintro x hx; obtain ⟨fo, -, rfl⟩ := List.mem_map.mp hx; simp)
      (by
        rintro x hx hpos
        obtain ⟨fo, hfo3, rfl⟩ := List.mem_map.mp hx
        exact hread fo hfo3 (by simpa using hpos))
    have hjeq : JoinedFile.init l = RawStenciledFile.init
        (l.map (fun fo => (fo, (0 : Int), (fo.data.length : Int)))) := by
      show RawStenciledFile.init ((l.zip (l.map (fun fobj => fobj.data.length))).map
        (fun p => (p.1, (0 : Int), ((if p.2 = 0 then 0 else p.2 : Nat) : Int)))) = _
      rw [joined_stencils]
    obtain ⟨-, ho2, hsz, hfo2, -⟩ := init_ok_elim _ f hfeq
    obtain ⟨hwf, -⟩ := init_WF _ f hfeq
    refine ⟨f, by rw [hjeq]; exact hfeq, ?_, ?_⟩
    · rw [totalSize_eq_sum f hwf, hsz]
      exact sum_filter_lengths l
    · rw [hfo2, ho2, hsz, tableContentFrom_maps, stencilContent_filter_pos]
      exact stencilContent_joined l
  · exact ⟨by decide, by decide, by decide⟩

theorem claim_C9_witness :
    ∃ f, JoinedFile.init [srcA, srcB, srcC] = .ok f ∧
      f.totalSize = ([srcA, srcB, srcC].map (fun fo => fo.data.length)).sum ∧
      tableContentFrom f.fileObjects f.offsets f.sizes =
        ([srcA, srcB, srcC].map (fun fo => fo.data)).flatten :=
  claim_C9_joined_file.1 [srcA, srcB, srcC] (by decide)

/-! ### Validation order at construction -/

def badSrc : FileObject := ⟨[1, 2, 3], false, false⟩

/-- C7 counterexample: a source that is NOT readable but appears only in a
zero-length stencil is accepted — the zero-length entry is filtered out
BEFORE the readability check, so construction succeeds (with an empty
table) instead of failing with a not-readable error as claimed. -/
theorem claim_C7_counterexample :
    badSrc.readable = false ∧
    RawStenciledFile.init [(badSrc, 0, 0)] = .ok ⟨0, [], [], [], [0]⟩ := by decide

/-- C7 (amended): construction validates, in order: every offset ≥ 0 and
every length ≥ 0 (rejecting the list with an assertion failure otherwise);
then zero-length entries are filtered out; only afterwards is the readable
capability required — and only of sources retained in positive-length
stencils.  Hence a non-readable source appearing only in zero-length
stencils is accepted.  (No read is issued on any source at construction;
the only source interaction is the `readable` capability query.) -/
theorem claim_C7_validation_order (fs : List (FileObject × Int × Int)) :
    ((∃ x ∈ fs, x.2.1 < 0 ∨ x.2.2 < 0) →
      RawStenciledFile.init fs = .error .assertionError) ∧
    ((∀ x ∈ fs, 0 ≤ x.2.1 ∧ 0 ≤ x.2.2) →
      (∃ x ∈ fs, 0 < x.2.2 ∧ x.1.readable = false) →
      RawStenciledFile.init fs = .error .valueError) ∧
    ((∀ x ∈ fs, 0 ≤ x.2.1 ∧ 0 ≤ x.2.2) →
      (∀ x ∈ fs, 0 < x.2.2 → x.1.readable = true) →
      ∃ f, RawStenciledFile.init fs = .ok f) := by
  refine ⟨?_, ?_, ?_⟩
  · rintro ⟨x, hx, hor⟩
    unfold RawStenciledFile.init
    dsimp only
    by_cases h1 : (fs.map (fun x => x.2.1)).all (fun o => decide (0 ≤ o)) = true
    · have hsz : x.2.2 < 0 := by
        rcases hor with h | h
        · exfalso
          have := List.all_eq_true.mp h1 _ (List.mem_map_of_mem _ hx)
          simp only [decide_eq_true_eq] at this
          omega
        · exact h
      have h2 : ¬ ((fs.map (fun x => x.2.2)).all (fun s => decide (0 ≤ s)) = true) := by
        intro hall
        have := List.all_eq_true.mp hall _ (List.mem_map_of_mem _ hx)
        simp only [decide_eq_true_eq] at this
        omega
      rw [if_neg (not_not_intro h1), if_pos h2]
    · rw [if_pos h1]
  · rintro hnn ⟨x, hx, hxpos, hxread⟩
    have hall1 : (fs.map (fun x => x.2.1)).all (fun o => decide (0 ≤ o)) = true := by
      rw [List.all_eq_true]
      intro a ha
      obtain ⟨y, hy, rfl⟩ := List.mem_map.mp ha
      simpa using (hnn y hy).1
    have hall2 : (fs.map (fun x => x.2.2)).all (fun s => decide (0 ≤ s)) = true := by
      rw [List.all_eq_true]
      intro a ha
      obtain ⟨y, hy, rfl⟩ := List.mem_map.mp ha
      simpa using (hnn y hy).2
    have h3 : ¬ (((fs.filter (fun x => decide (0 < x.2.2))).map
        (fun x => x.1)).all (fun fo => fo.readable) = true) := by
      intro hall
      have hxmem : x ∈ fs.filter (fun x => decide (0 < x.2.2)) :=
        List.mem_filter.mpr ⟨hx, by simpa using hxpos⟩
      have := List.all_eq_true.mp hall _ (List.mem_map_of_mem _ hxmem)
      rw [hxread] at this
      exact Bool.false_ne_true this
    unfold RawStenciledFile.init
    dsimp only
    rw [if_neg (not_not_intro hall1), if_neg (not_not_intro hall2), if_pos h3]
  · intro hnn hread
    exact init_ok_of_valid fs (fun x hx => (hnn x hx).1) (fun x hx => (hnn x hx).2) hread

theorem claim_C7_witness :
    RawStenciledFile.init [((badSrc : FileObject), (0 : Int), (2 : Int))] =
      .error .valueError ∧
    ∃ f, RawStenciledFile.init [((badSrc : FileObject), (0 : Int), (0 : Int))] = .ok f := by
  constructor
  · exact (claim_C7_validation_order [(badSrc, 0, 2)]).2.1 (by decide)
      ⟨(badSrc, 0, 2), by decide, by decide, by decide⟩
  · exact (claim_C7_validation_order [(badSrc, 0, 0)]).2.2 (by decide) (by decide)
